import Mathlib

/-!
Verification of the assembly quality-control engine of the `templates`
repository: the assembly summary-statistics calculator (`assembly_report.py`),
the coverage/health classifier (`process_assembly_mapping.py`), the SPAdes
contig filter (`process_spades.py`) and the read encoding/coverage estimator
(`integrity_coverage.py`), shallowly embedded in Lean.

Numeric conventions: Python ints are `Nat` (all quantities in the sources are
non-negative), Python floats are `ℚ` (the sources only use +, *, / and
comparisons, at magnitudes where the double results agree with the exact
rationals for every concrete input considered here).  Python exceptions are
`Except String`.
-/

namespace AssemblyReport

/-- `s.count(c)` for a single character `c` (Python `str.count`). -/
def countChar (s : String) (c : Char) : Nat := s.data.count c

/-- `sum(map(sequence.count, ["G", "C"]))` from `Assembly.get_summary_stats`
(uppercase-only counting, as in the source). -/
def gcCount (s : String) : Nat := countChar s 'G' + countChar s 'C'

/-- One slot of the `summary_info` ordered dict.  `avg_contig_size` and
`avg_gc` start life as a Python list and are later re-assigned to a float;
the two dynamic types are modelled as a sum. -/
inductive InfoSlot where
  | lst (l : List ℚ)
  | num (q : ℚ)
deriving DecidableEq

/-- The `summary_info` ordered dict of `assembly_report.Assembly`. -/
structure SummaryInfo where
  ncontigs : Nat
  avg_contig_size : InfoSlot
  n50 : Nat
  total_len : Nat
  avg_gc : InfoSlot
  missing_data : Nat
deriving DecidableEq

/-- `summary_info` as initialised in `Assembly.__init__`. -/
def initSummary : SummaryInfo :=
  ⟨0, InfoSlot.lst [], 0, 0, InfoSlot.lst [], 0⟩

/-- Python raises `AttributeError` when `.append` is taken on a float. -/
def attrError : String := "AttributeError"

/-- Python raises `ZeroDivisionError` on division by zero. -/
def zeroDivError : String := "ZeroDivisionError"

/-- The per-contig loop of `Assembly.get_summary_stats`: accumulates
`contig_size_list`, `total_len`, the `avg_gc` list and `missing_data`.
The Python body evaluates `summary_info["avg_gc"].append` (an
`AttributeError` when the slot is no longer a list) before evaluating its
argument (a `ZeroDivisionError` when the contig is empty). -/
def summaryLoop :
    List (String × String) → List Nat → Nat → InfoSlot → Nat →
    Except String (List Nat × Nat × List ℚ × Nat)
  | [], sizes, total, slot, miss =>
    match slot with
    | InfoSlot.lst g => Except.ok (sizes, total, g, miss)
    | InfoSlot.num _ => Except.ok (sizes, total, [], miss)
  | (_, seq) :: rest, sizes, total, slot, miss =>
    let contigLen := seq.length
    match slot with
    | InfoSlot.num _ => Except.error attrError
    | InfoSlot.lst g =>
      if contigLen = 0 then Except.error zeroDivError
      else
        summaryLoop rest (sizes ++ [contigLen]) (total + contigLen)
          (InfoSlot.lst (g ++ [(gcCount seq : ℚ) / (contigLen : ℚ)]))
          (miss + countChar seq 'N')

/-- The N50 loop of `Assembly.get_summary_stats`:
`for l in sorted(contig_size_list, reverse=True): cum_size += l;
 if cum_size >= total_len / 2: n50 = l; break`.
The exact-integer equivalent of `cum_size >= total_len / 2` is
`2 * cum_size ≥ total_len`.  `none` means the loop ended without `break`. -/
def n50Loop : List Nat → Nat → Nat → Option Nat
  | [], _, _ => none
  | l :: rest, cum, total =>
    if 2 * (cum + l) ≥ total then some l else n50Loop rest (cum + l) total

/-- `sorted(l, reverse=True)`: stable descending sort. -/
def sortDesc (l : List Nat) : List Nat :=
  List.insertionSort (fun a b => a ≥ b) l

/-- `Assembly.get_summary_stats` as a function of the parsed contigs (header,
sequence pairs, in insertion order) and the current `summary_info` state,
returning the updated state.  Mirrors the source statement by statement:
`ncontigs` is set to the record count, the per-contig loop accumulates on top
of the state it is given, the two averages divide by the list lengths
(Python's `ZeroDivisionError` for an empty assembly), and the N50 loop keeps
the previous `n50` value if it never breaks. -/
def getSummaryStats (contigs : List (String × String)) (info : SummaryInfo) :
    Except String SummaryInfo :=
  match summaryLoop contigs [] info.total_len info.avg_gc info.missing_data with
  | Except.error e => Except.error e
  | Except.ok (sizes, total, g, miss) =>
    if sizes.length = 0 then Except.error zeroDivError
    else
      let avgSize : ℚ := (sizes.sum : ℚ) / (sizes.length : ℚ)
      if g.length = 0 then Except.error zeroDivError
      else
        let avgGc : ℚ := g.sum / (g.length : ℚ)
        let n50v : Nat := (n50Loop (sortDesc sizes) 0 total).getD info.n50
        Except.ok ⟨contigs.length, InfoSlot.num avgSize, n50v, total,
          InfoSlot.num avgGc, miss⟩

/-! ### Sliding-window machinery of `assembly_report.Assembly`

`_get_window_labels` extracts the numeric contig id from each header with
`re.search(".*_NODE_([0-9]*)_.*", contig).group(1)`: the greedy leading `.*`
selects the last occurrence of `_NODE_` that is followed by a digit run and
an underscore; when no occurrence matches, `.group(1)` on `None` raises an
`AttributeError`. -/

/-- The digits captured when the pattern `_NODE_([0-9]*)_` matches at the
head of `l`. -/
def nodeIdHere (l : List Char) : Option (List Char) :=
  if l.take 6 = "_NODE_".data then
    let ds := (l.drop 6).takeWhile Char.isDigit
    match (l.drop 6).drop ds.length with
    | '_' :: _ => some ds
    | _ => none
  else none

/-- The match of `.*_NODE_([0-9]*)_.*`: the last matching occurrence wins
(greedy `.*`). -/
def lastNodeId : List Char → Option (List Char)
  | [] => none
  | c :: rest =>
    match lastNodeId rest with
    | some d => some d
    | none => nodeIdHere (c :: rest)

/-- `re.search(".*_NODE_([0-9]*)_.*", contig).group(1)`; `none` stands for
the `AttributeError` raised on a non-matching header. -/
def nodeId (s : String) : Option String :=
  (lastNodeId s.data).map fun l => String.mk l

/-- `range(0, total, window)` for `window > 0` (both call sites pass 2000). -/
def rangeStep (total window : Nat) : List Nat :=
  (List.range ((total + window - 1) / window)).map (· * window)

/-- The contig boundary map built by `_get_window_labels`: walking the
contigs in insertion order, each contig gets its absolute `[start, end)`
offsets. -/
def boundariesOf : List (String × String) → Nat → List (String × Nat × Nat)
  | [], _ => []
  | (h, seq) :: rest, c => (h, c, c + seq.length) :: boundariesOf rest (c + seq.length)

/-- The inner loop of the label assignment: scan the boundary map in
insertion order, extract the contig id of each entry (an `AttributeError`
when the header has no `_NODE_` token), and label the window starting at `i`
with the first contig whose range contains `i`. -/
def windowLabelAt : List (String × Nat × Nat) → Nat → Except String (Option String)
  | [], _ => Except.ok none
  | (contig, lo, hi) :: rest, i =>
    match nodeId contig with
    | none => Except.error attrError
    | some cid =>
      if lo ≤ i ∧ i < hi then Except.ok (some (cid ++ "_" ++ toString i))
      else windowLabelAt rest i

/-- The outer label loop of `_get_window_labels`. -/
def collectLabels (bounds : List (String × Nat × Nat)) :
    List Nat → Except String (List String)
  | [] => Except.ok []
  | i :: is => do
    let l ← windowLabelAt bounds i
    let rest ← collectLabels bounds is
    match l with
    | some s => Except.ok (s :: rest)
    | none => Except.ok rest

/-- `Assembly._get_window_labels(window)`: returns the labels and the
contig-end x-axis positions, as a function of the parsed contigs and the
`summary_info["total_len"]` value current at the call. -/
def getWindowLabels (contigs : List (String × String)) (totalLen window : Nat) :
    Except String (List String × List ℚ) := do
  let bounds := boundariesOf contigs 0
  let xbars := bounds.map fun b => (b.2.2 : ℚ) / (window : ℚ)
  let labels ← collectLabels bounds (rangeStep totalLen window)
  Except.ok (labels, xbars)

/-- The mean-coverage windows of `Assembly.get_coverage_sliding`: slices of
the flattened per-base coverage list, averaged. -/
def meanWindows (cov : List Nat) (window : Nat) : List ℚ :=
  (rangeStep cov.length window).map fun i =>
    let w := (cov.drop i).take window
    (w.sum : ℚ) / (w.length : ℚ)

/-- `Assembly.get_coverage_sliding(coverage_file, window)` as a function of
the parsed contigs, the current `total_len`, and the parsed per-base depth
table (`contig_coverage`: contig id to its ordered per-base depths).  The
flat coverage list concatenates only the contigs present in the depth table;
a contig absent from it contributes nothing and raises nothing here. -/
def getCoverageSliding (contigs : List (String × String)) (totalLen : Nat)
    (contigCoverage : List (String × List Nat)) (window : Nat) :
    Except String (List ℚ × List String × List ℚ) := do
  let (labels, xbars) ← getWindowLabels contigs totalLen window
  let completeCov := (contigCoverage.map Prod.snd).flatten
  Except.ok (meanWindows completeCov window, labels, xbars)

end AssemblyReport

namespace ProcessAssemblyMapping

/-- One value of `coverage_dict` in `process_assembly_mapping.py`:
`{"cov": int(cov), "len": contig_len}`. -/
structure CovEntry where
  cov : Nat
  len : Nat
deriving DecidableEq

/-- Python raises `KeyError` on a missing dict key. -/
def keyError : String := "KeyError"

/-- `sum([sum(coverage_bp[x]) for x in keys])`: a `KeyError` when a key is
absent from the per-base coverage dict. -/
def sumBp (bp : List (String × List Nat)) : List String → Except String Nat
  | [] => Except.ok 0
  | k :: rest =>
    match bp.lookup k with
    | none => Except.error keyError
    | some l => do
      let s ← sumBp bp rest
      Except.ok (l.sum + s)

/-- The warning written when the filtered assembly exceeds 150% of the
expected genome size (`check_filtered_assembly`). -/
def largeMsg (n : Nat) : String :=
  "Assembly size (" ++ toString n ++
    ") smaller than the maximum threshold of 150% of expected genome size."

/-- The warning written when the filtered contig count exceeds the
threshold.  Python renders the float threshold in its own way; the decimal
rendering is abstracted by `toString`. -/
def contigMsg (n : Nat) (t : ℚ) : String :=
  "The number of contigs (" ++ toString n ++
    ") exceeds the threshold of 100 contigs per 1.5Mb: " ++ toString t

/-- The warning written when the filtered assembly falls below 80% of the
expected genome size.  The source calls `.format(assembly_len)` on a string
with no placeholder, so the length never appears in this message. -/
def smallMsg : String :=
  "Assembly size smaller than the minimum threshold of 80% of expected genome size."

/-- `"Large_genome_size_({})".format(assembly_len)`. -/
def largeFail (n : Nat) : String := "Large_genome_size_(" ++ toString n ++ ")"

/-- `"Small_genome_size_({})".format(assembly_len)`. -/
def smallFail (n : Nat) : String := "Small_genome_size_(" ++ toString n ++ ")"

/-- The contigs whose coverage passes the minimum threshold: the list
comprehension `[... for x in coverage_info ... if x["cov"] >=
minimum_coverage]` that `check_filtered_assembly` evaluates three times
(for the length sum, the count and the key list). -/
def keptContigs (coverageInfo : List (String × CovEntry))
    (minimumCoverage : ℚ) : List (String × CovEntry) :=
  coverageInfo.filter fun p => (p.2.cov : ℚ) ≥ minimumCoverage

/-- `assembly_len`: the summed length of the kept contigs. -/
def filteredLen (coverageInfo : List (String × CovEntry))
    (minimumCoverage : ℚ) : Nat :=
  ((keptContigs coverageInfo minimumCoverage).map fun p => p.2.len).sum

/-- Everything `check_filtered_assembly` leaves behind: the messages written
to `.warnings`, the `warnings` tag list and `fails` string of the JSON
report, the returned health boolean and the sparkline/coverage data. -/
structure CheckResult where
  warnFile : List String
  warnings : List String
  fails : String
  health : Bool
  sparkline : Nat
  coverageDist : List Nat
deriving DecidableEq

/-- `check_filtered_assembly(coverage_info, coverage_bp, minimum_coverage,
genome_size, max_contigs)`.  The three threshold checks run unconditionally
and in source order; only the 80% check flips `health` to `False`, which is
the returned verdict. -/
def checkFilteredAssembly (coverageInfo : List (String × CovEntry))
    (coverageBp : List (String × List Nat)) (minimumCoverage : ℚ)
    (genomeSize : ℚ) (maxContigs : Nat) : Except String CheckResult :=
  let kept := keptContigs coverageInfo minimumCoverage
  let assemblyLen : Nat := filteredLen coverageInfo minimumCoverage
  let ncontigs : Nat := kept.length
  let filteredContigs : List String := kept.map Prod.fst
  match sumBp coverageBp filteredContigs with
  | Except.error e => Except.error e
  | Except.ok bp₀ =>
    let wf₁ := if (assemblyLen : ℚ) > genomeSize * 1000000 * 1.5
      then [largeMsg assemblyLen] else []
    let fails₁ := if (assemblyLen : ℚ) > genomeSize * 1000000 * 1.5
      then largeFail assemblyLen else ""
    let contigThreshold : ℚ := (maxContigs : ℚ) * genomeSize / 1.5
    let wf₂ := if (ncontigs : ℚ) > contigThreshold
      then [contigMsg ncontigs contigThreshold] else []
    let warns := if (ncontigs : ℚ) > contigThreshold
      then ["excessive_contigs:high"] else []
    let coverageDist := coverageInfo.map fun p => p.2.cov
    if (assemblyLen : ℚ) < genomeSize * 1000000 * 0.8 then
      match sumBp coverageBp (coverageInfo.map Prod.fst) with
      | Except.error e => Except.error e
      | Except.ok bp₁ =>
        Except.ok ⟨wf₁ ++ wf₂ ++ [smallMsg], warns, smallFail assemblyLen,
          false, bp₁, coverageDist⟩
    else
      Except.ok ⟨wf₁ ++ wf₂, warns, fails₁, true, bp₀, coverageDist⟩

/-- The `opts` minimum-coverage argument: the string `"auto"` or a number. -/
inductive CoverageOpt where
  | auto
  | manual (n : Int)

/-- `evaluate_min_coverage(coverage_opt, assembly_coverage, assembly_size)`. -/
def evaluateMinCoverage (coverageOpt : CoverageOpt)
    (assemblyCoverage assemblySize : ℚ) : ℚ :=
  match coverageOpt with
  | CoverageOpt.auto =>
    let minCoverage := assemblyCoverage / assemblySize * 0.3
    if minCoverage < 10 then 10 else minCoverage
  | CoverageOpt.manual n => (n : ℚ)

end ProcessAssemblyMapping

namespace ProcessSpades

/-- The `self.contigs` keys a filter rule can name in `process_spades.py`
(`length`, `kmer_cov` and the GC proportion used by the built-in rules). -/
inductive ContigKey where
  | length
  | kmer_cov
  | gc_prop
deriving DecidableEq

/-- The comparison operators of `Assembly._test_truth`. -/
inductive CmpOp where
  | gt
  | lt
  | ge
  | le
deriving DecidableEq

/-- The per-contig attributes a rule can test (numeric view of the
`self.contigs` entry). -/
structure Contig where
  length : Nat
  kmer_cov : ℚ
  gc_prop : ℚ
deriving DecidableEq

/-- `contig[key]`. -/
def contigVal (c : Contig) : ContigKey → ℚ
  | ContigKey.length => (c.length : ℚ)
  | ContigKey.kmer_cov => c.kmer_cov
  | ContigKey.gc_prop => c.gc_prop

/-- `Assembly._test_truth(x, op, y)`. -/
def testTruth (x : ℚ) : CmpOp → ℚ → Bool
  | CmpOp.gt, y => decide (x > y)
  | CmpOp.lt, y => decide (x < y)
  | CmpOp.ge, y => decide (x ≥ y)
  | CmpOp.le, y => decide (x ≤ y)

/-- A filter rule `[key, operator, value]`. -/
structure Rule where
  key : ContigKey
  op : CmpOp
  value : ℚ
deriving DecidableEq

/-- `self.min_gc = 0.05`, set in `Assembly.__init__` and never changed. -/
def min_gc : ℚ := 0.05

/-- The `gc_filters` list that `Assembly.filter_contigs` appends to every
caller-supplied rule set. -/
def gcFilters : List Rule :=
  [⟨ContigKey.gc_prop, CmpOp.ge, min_gc⟩,
   ⟨ContigKey.gc_prop, CmpOp.le, 1 - min_gc⟩]

/-- A `self.report` value: `"pass"`, or the `"{key}/{value}/{threshold}"`
string of the first failing rule (here kept as the structured triple the
source serializes). -/
inductive ReportVal where
  | pass
  | fail (key : ContigKey) (value : ℚ) (threshold : ℚ)
deriving DecidableEq

/-- The inner loop of `Assembly.filter_contigs` for one contig: the first
rule the contig fails (the loop `break`s there), or `none` when every rule
passes. -/
def firstFail (c : Contig) : List Rule → Option Rule
  | [] => none
  | r :: rest =>
    if testTruth (contigVal c r.key) r.op r.value then firstFail c rest
    else some r

/-- `Assembly.filter_contigs(*comparisons)` over the contig dict (id,
contig) pairs in iteration order: the `filtered_ids` list and the `report`
entries.  The GC rules are appended to the caller's comparisons inside the
method. -/
def filterContigs (comparisons : List Rule) :
    List (Nat × Contig) → List Nat × List (Nat × ReportVal)
  | [] => ([], [])
  | (i, c) :: rest =>
    let (ids, rep) := filterContigs comparisons rest
    match firstFail c (comparisons ++ gcFilters) with
    | some r =>
      (i :: ids, (i, ReportVal.fail r.key (contigVal c r.key) r.value) :: rep)
    | none => (ids, (i, ReportVal.pass) :: rep)

/-- `Assembly.write_assembly(output_file, filtered)`: the records written to
the output file, one string per contig that passes the write condition
`contig_id not in self.filtered_ids and filtered`. -/
def writeAssembly (sample : String) (contigs : List (Nat × String × String))
    (filteredIds : List Nat) (filtered : Bool) : List String :=
  contigs.foldr
    (fun e acc =>
      if !(filteredIds.contains e.1) && filtered then
        (">" ++ sample ++ "_" ++ e.2.1 ++ "\n" ++ e.2.2 ++ "\n") :: acc
      else acc)
    []

end ProcessSpades

namespace IntegrityCoverage

/-- The `RANGES` table of `integrity_coverage.py`: encoding name, phred
score, and the inclusive code-point range `(emin, emax)`. -/
def RANGES : List (String × Nat × Nat × Nat) :=
  [("Sanger", 33, 33, 73),
   ("Illumina-1.8", 33, 33, 74),
   ("Solexa", 64, 59, 104),
   ("Illumina-1.3", 64, 64, 104),
   ("Illumina-1.5", 64, 66, 105)]

/-- The loop of `get_encodings_in_range` over a table tail. -/
def encodingsInRangeAux (rmin rmax : Nat) :
    List (String × Nat × Nat × Nat) → List String × List Nat
  | [] => ([], [])
  | (name, phred, emin, emax) :: rest =>
    let (es, ps) := encodingsInRangeAux rmin rmax rest
    if emin ≤ rmin ∧ rmax ≤ emax then (name :: es, phred :: ps) else (es, ps)

/-- `get_encodings_in_range(rmin, rmax)`: the `(valid_encodings,
valid_phred)` lists, in `RANGES` order. -/
def getEncodingsInRange (rmin rmax : Nat) : List String × List Nat :=
  encodingsInRangeAux rmin rmax RANGES

/-- `get_qual_range(qual_str)`: the (min, max) code points; `none` stands
for the `ValueError` Python's `min`/`max` raise on an empty string. -/
def getQualRange (s : String) : Option (Nat × Nat) :=
  match s.data.map Char.toNat with
  | [] => none
  | v :: vs => some (vs.foldl min v, vs.foldl max v)

/-- The running state of the `main` loop of `integrity_coverage.py`. -/
structure EstState where
  gmin : Nat
  gmax : Nat
  encoding : List String
  phred : Option (List Nat)
  chars : Nat
  maxReadLength : Nat
deriving DecidableEq

/-- The initial values set before the loop: `gmin, gmax = 99, 0`,
`encoding = []`, `phred = None`, `chars = 0`, `max_read_length = 0`. -/
def initEst : EstState := ⟨99, 0, [], none, 0, 0⟩

/-- The exceptions the estimator loop can raise: `EOFError` from a
truncated compressed stream, `ValueError` from `min`/`max` on an empty
quality line. -/
inductive EstErr where
  | eof
  | valueError
deriving DecidableEq

/-- One item yielded by iterating the chained pair of read files: a line,
or the point where the underlying stream raises `EOFError`. -/
inductive ReadItem where
  | line (s : String)
  | truncated

/-- The body of `for i, line in enumerate(chain(*file_objects))`: quality
lines (`(i + 1) % 4 == 0`) update the encoding bounds unless skipped;
sequence lines (`(i + 3) % 4 == 0`) update `chars` and the maximum read
length.  Lines are modelled already stripped. -/
def stepLine (skipEncoding : Bool) (i : Nat) (line : String) (st : EstState) :
    Except EstErr EstState := do
  let st ←
    if (i + 1) % 4 = 0 ∧ ¬skipEncoding then
      match getQualRange line with
      | none => Except.error EstErr.valueError
      | some (lmin, lmax) =>
        if lmin < st.gmin ∨ lmax > st.gmax then
          let gmin := min lmin st.gmin
          let gmax := max lmax st.gmax
          let (enc, ph) := getEncodingsInRange gmin gmax
          Except.ok { st with
                        gmin := gmin
                        gmax := gmax
                        encoding := enc
                        phred := some ph }
        else Except.ok st
    else Except.ok st
  if (i + 3) % 4 = 0 then
    let readLen := line.length
    Except.ok { st with
                  chars := st.chars + readLen
                  maxReadLength := if readLen > st.maxReadLength then readLen
                    else st.maxReadLength }
  else Except.ok st

/-- The whole read-pair iteration, starting at line index `i`.  Advancing
past a `truncated` item raises `EOFError`. -/
def iterateReads (skipEncoding : Bool) :
    List ReadItem → Nat → EstState → Except EstErr EstState
  | [], _, st => Except.ok st
  | ReadItem.truncated :: _, _, _ => Except.error EstErr.eof
  | ReadItem.line s :: rest, i, st => do
    let st' ← stepLine skipEncoding i s st
    iterateReads skipEncoding rest (i + 1) st'

/-- The final encoding decision of `main`: `if len(encoding) > 1` the
deduplicated sets are written joined with commas; otherwise the literal
`"None"` is written to both channels.  (Python iterates a `set`; the
first-occurrence order of `dedup` is a deterministic stand-in.) -/
def encodingDecision (encoding : List String) (phred : Option (List Nat)) :
    String × String :=
  if encoding.length > 1 then
    (String.intercalate "," encoding.dedup,
     String.intercalate "," (((phred.getD []).dedup).map toString))
  else ("None", "None")

/-- `round(x, 2)`.  Python rounds half to even; the claims never depend on
a tie, so half-up is used. -/
def round2 (q : ℚ) : ℚ := ((⌊q * 100 + 1 / 2⌋ : ℤ) : ℚ) / 100

/-- The five output channels of `main`: the `*_encoding`, `*_phred`,
`*_coverage`, `*_report` and `*_max_len` files. -/
structure Outputs where
  encoding : String
  phred : String
  coverage : String
  report : String
  maxLen : String
deriving DecidableEq

/-- What the `except EOFError` handler writes to every channel. -/
def corruptOutputs : Outputs :=
  ⟨"corrupt", "corrupt", "corrupt", "corrupt", "corrupt"⟩

/-- `main(fastq_id, fastq_pair, gsize, minimum_coverage, opts)` as a
function of the logical line stream: on `EOFError` every channel gets
`"corrupt"`; otherwise the encoding decision, the coverage estimate
(`round(chars / (gsize * 1e6), 2)` against the minimum) and the maximum
read length are written.  Any other exception propagates.  Decimal
rendering of the coverage value is abstracted by `toString`. -/
def mainIC (fastqId : String) (items : List ReadItem) (gsize : ℚ)
    (minimumCoverage : ℚ) (skipEncoding : Bool) : Except EstErr Outputs :=
  match iterateReads skipEncoding items 0 initEst with
  | Except.error EstErr.eof => Except.ok corruptOutputs
  | Except.error e => Except.error e
  | Except.ok st =>
    let (enc, ph) := encodingDecision st.encoding st.phred
    let expCoverage := round2 ((st.chars : ℚ) / (gsize * 1000000))
    let (covStr, repStr) :=
      if expCoverage ≥ minimumCoverage then
        (toString expCoverage, fastqId ++ "," ++ toString expCoverage ++ ",PASS")
      else ("fail", fastqId ++ "," ++ toString expCoverage ++ ",FAIL")
    Except.ok ⟨enc, ph, covStr, repStr, toString st.maxReadLength⟩

end IntegrityCoverage

/-! ## Theorems -/

namespace ProcessSpades

/-- C10: for every parsed assembly and output path, `write_assembly` with
`filtered=False` writes no contig records at all, because the per-contig
write condition is the conjunction `contig_id not in self.filtered_ids and
filtered`. -/
theorem write_assembly_unfiltered_writes_nothing :
    ∀ (sample : String) (contigs : List (Nat × String × String))
      (filteredIds : List Nat),
    writeAssembly sample contigs filteredIds false = [] := by
  intro sample contigs filteredIds
  induction contigs with
  | nil => rfl
  | cons e rest _ => simp [writeAssembly, Bool.and_false]

end ProcessSpades

namespace ProcessAssemblyMapping

/-- C3: with the `"auto"` option, `evaluate_min_coverage` returns
`(total_coverage / total_length) * 0.3` clamped up to the floor of 10, and
at `total_coverage = 10000`, `total_length = 100` it returns exactly `30`
with the clamp not applied. -/
theorem evaluateMinCoverage_auto_spec :
    (∀ C L : ℚ, 0 < L →
      evaluateMinCoverage CoverageOpt.auto C L = max (C / L * 0.3) 10) ∧
    evaluateMinCoverage CoverageOpt.auto 10000 100 = 30 ∧
    ¬((10000 : ℚ) / 100 * 0.3 < 10) := by
  refine ⟨fun C L _ => ?_, by norm_num [evaluateMinCoverage], by norm_num⟩
  show (if C / L * 0.3 < 10 then (10 : ℚ) else C / L * 0.3) = max (C / L * 0.3) 10
  split_ifs with h
  · rw [max_eq_right h.le]
  · rw [max_eq_left (not_lt.mp h)]

end ProcessAssemblyMapping

namespace IntegrityCoverage

/-- C5: the observed code-point range `[59, 104]` yields the singleton
candidate set `["Solexa"]` with phred `[64]`, yet the final decision of
`main` (`if len(encoding) > 1` … `else` write `"None"`) reports `"None"`
for both channels: a singleton candidate set is not reported singly, which
contradicts the module's documented output contract. -/
theorem singleton_encoding_reported_none :
    (getEncodingsInRange 59 104).1 = ["Solexa"] ∧
    (getEncodingsInRange 59 104).2 = [64] ∧
    encodingDecision ["Solexa"] (some [64]) = ("None", "None") :=
  ⟨rfl, rfl, rfl⟩

/-- C6 counterexample: at the observed range `[33, 74]` the candidate set
contains only `"Illumina-1.8"`; `"Sanger"` (range `[33, 73]`) is not a
superset of `[33, 74]` and is excluded. -/
theorem sanger_excluded_at_33_74 :
    "Sanger" ∉ (getEncodingsInRange 33 74).1 ∧
    getEncodingsInRange 33 74 = (["Illumina-1.8"], [33]) := by
  constructor
  · decide
  · rfl

/-- `get_encodings_in_range` keeps exactly the `RANGES` entries whose
range is a superset of the observed range. -/
theorem mem_encodingsInRangeAux :
    ∀ (l : List (String × Nat × Nat × Nat)) (rmin rmax : Nat) (name : String),
      name ∈ (encodingsInRangeAux rmin rmax l).1 ↔
        ∃ phred emin emax, (name, phred, emin, emax) ∈ l ∧
          emin ≤ rmin ∧ rmax ≤ emax := by
  intro l rmin rmax name
  induction l with
  | nil => simp [encodingsInRangeAux]
  | cons e rest ih =>
    obtain ⟨nm, p, lo, hi⟩ := e
    simp only [encodingsInRangeAux]
    split_ifs with h
    · simp only [List.mem_cons, ih]
      constructor
      · rintro (rfl | ⟨p', lo', hi', hm, h1, h2⟩)
        · exact ⟨p, lo, hi, Or.inl rfl, h.1, h.2⟩
        · exact ⟨p', lo', hi', Or.inr hm, h1, h2⟩
      · rintro ⟨p', lo', hi', (heq | hm), h1, h2⟩
        · simp only [Prod.mk.injEq] at heq
          exact Or.inl heq.1
        · exact Or.inr ⟨p', lo', hi', hm, h1, h2⟩
    · rw [ih]
      constructor
      · rintro ⟨p', lo', hi', hm, h1, h2⟩
        exact ⟨p', lo', hi', List.mem_cons_of_mem _ hm, h1, h2⟩
      · rintro ⟨p', lo', hi', hm, h1, h2⟩
        rcases List.mem_cons.mp hm with heq | hm'
        · simp only [Prod.mk.injEq] at heq
          exact absurd ⟨heq.2.2.1 ▸ h1, heq.2.2.2 ▸ h2⟩ h
        · exact ⟨p', lo', hi', hm', h1, h2⟩

/-- C6 (amended): an encoding is returned exactly when its known range is
a superset of the observed range; for the observed range `[33, 74]` the
candidate set is `["Illumina-1.8"]` and the phred set `[33]`. -/
theorem encodings_superset_of_observed_range :
    (∀ (rmin rmax : Nat) (name : String),
      name ∈ (getEncodingsInRange rmin rmax).1 ↔
        ∃ phred emin emax, (name, phred, emin, emax) ∈ RANGES ∧
          emin ≤ rmin ∧ rmax ≤ emax) ∧
    getEncodingsInRange 33 74 = (["Illumina-1.8"], [33]) :=
  ⟨fun rmin rmax name => mem_encodingsInRangeAux RANGES rmin rmax name, rfl⟩

/-- C7: when iterating the paired read stream raises `EOFError`, every one
of the five output channels of the estimator receives exactly the
`"corrupt"` sentinel and no partial value. -/
theorem corrupt_sentinel_on_truncation :
    ∀ (fastqId : String) (items : List ReadItem)
      (gsize minimumCoverage : ℚ) (skipEncoding : Bool),
    iterateReads skipEncoding items 0 initEst = Except.error EstErr.eof →
    mainIC fastqId items gsize minimumCoverage skipEncoding =
      Except.ok ⟨"corrupt", "corrupt", "corrupt", "corrupt", "corrupt"⟩ := by
  intro fastqId items gsize minimumCoverage skipEncoding h
  unfold mainIC
  rw [h]
  rfl

/-- C7 witness: a concrete pair stream truncated mid-record. -/
theorem corrupt_sentinel_on_truncation_witness :
    iterateReads false
        [ReadItem.line "@r1", ReadItem.line "ACGT", ReadItem.truncated]
        0 initEst = Except.error EstErr.eof ∧
    mainIC "sampleA"
        [ReadItem.line "@r1", ReadItem.line "ACGT", ReadItem.truncated]
        1 15 false =
      Except.ok ⟨"corrupt", "corrupt", "corrupt", "corrupt", "corrupt"⟩ :=
  ⟨rfl, corrupt_sentinel_on_truncation "sampleA" _ 1 15 false rfl⟩

end IntegrityCoverage

namespace AssemblyReport

/-- The per-contig loop, when it succeeds from a list-valued `avg_gc` slot,
appends exactly the contig lengths to `contig_size_list` and their sum to
`total_len`. -/
theorem summaryLoop_ok_sizes :
    ∀ (contigs : List (String × String)) (sizes₀ : List Nat) (total₀ : Nat)
      (g₀ : List ℚ) (m₀ : Nat) (out : List Nat × Nat × List ℚ × Nat),
    summaryLoop contigs sizes₀ total₀ (InfoSlot.lst g₀) m₀ = Except.ok out →
    out.1 = sizes₀ ++ contigs.map (fun c => c.2.length) ∧
    out.2.1 = total₀ + (contigs.map (fun c => c.2.length)).sum := by
  intro contigs
  induction contigs with
  | nil =>
    intro sizes₀ total₀ g₀ m₀ out h
    simp only [summaryLoop, Except.ok.injEq] at h
    subst h
    simp
  | cons hd rest ih =>
    intro sizes₀ total₀ g₀ m₀ out h
    obtain ⟨hid, seq⟩ := hd
    simp only [summaryLoop] at h
    split at h
    · exact absurd h (by simp)
    · obtain ⟨h1, h2⟩ := ih _ _ _ _ _ h
      refine ⟨?_, ?_⟩
      · rw [h1]; simp
      · rw [h2]; simp; omega

/-- The N50 `for`/`break` loop returns the element at the first position
whose running cumulative sum reaches half the total, whenever the full sum
would reach it. -/
theorem n50Loop_first :
    ∀ (l : List Nat) (cum total : Nat),
      l ≠ [] → 2 * (cum + l.sum) ≥ total →
      ∃ k, ∃ hk : k < l.length,
        n50Loop l cum total = some (l.get ⟨k, hk⟩) ∧
        2 * (cum + ((l.take (k + 1)).sum)) ≥ total ∧
        ∀ j, j < k → 2 * (cum + ((l.take (j + 1)).sum)) < total := by
  intro l
  induction l with
  | nil => intro cum total hne; exact absurd rfl hne
  | cons a rest ih =>
    intro cum total _ hsum
    by_cases hbreak : 2 * (cum + a) ≥ total
    · refine ⟨0, by simp, ?_, ?_, ?_⟩
      · simp [n50Loop, hbreak]
      · simpa using hbreak
      · intro j hj; omega
    · have hblt : 2 * (cum + a) < total := by omega
      have hne' : rest ≠ [] := by
        rintro rfl
        simp only [List.sum_cons, List.sum_nil] at hsum
        omega
      have hsum' : 2 * ((cum + a) + rest.sum) ≥ total := by
        simp only [List.sum_cons] at hsum
        omega
      obtain ⟨k, hk, heq, hge, hlt⟩ := ih (cum + a) total hne' hsum'
      refine ⟨k + 1, by simpa using Nat.succ_lt_succ hk, ?_, ?_, ?_⟩
      · rw [n50Loop, if_neg hbreak, heq]
        rfl
      · rw [List.take_succ_cons, List.sum_cons]
        omega
      · intro j hj
        cases j with
        | zero => simpa using hblt
        | succ j' =>
          have := hlt j' (by omega)
          rw [List.take_succ_cons, List.sum_cons]
          omega

/-- C1: for every assembly on which `get_summary_stats` succeeds, the
computed N50 is the element at the first position of the
descending-sorted contig lengths whose cumulative sum reaches or exceeds
half of the total assembly length, and is therefore itself one of the
input contig lengths. -/
theorem n50_first_cumulative_at_half :
    ∀ (contigs : List (String × String)) (s : SummaryInfo),
    getSummaryStats contigs initSummary = Except.ok s →
    s.total_len = (contigs.map fun c => c.2.length).sum ∧
    s.n50 ∈ contigs.map (fun c => c.2.length) ∧
    ∃ k, ∃ hk : k < (sortDesc (contigs.map fun c => c.2.length)).length,
      s.n50 = (sortDesc (contigs.map fun c => c.2.length)).get ⟨k, hk⟩ ∧
      2 * ((sortDesc (contigs.map fun c => c.2.length)).take (k + 1)).sum ≥
        s.total_len ∧
      ∀ j, j < k →
        2 * ((sortDesc (contigs.map fun c => c.2.length)).take (j + 1)).sum <
          s.total_len := by
  intro contigs s h
  unfold getSummaryStats at h
  split at h
  · exact absurd h (by simp)
  case _ sizes total g miss heq =>
    simp only [initSummary] at heq
    obtain ⟨hsz, htot⟩ := summaryLoop_ok_sizes contigs [] 0 [] 0 _ heq
    simp only [List.nil_append, Nat.zero_add] at hsz htot
    split at h
    · exact absurd h (by simp)
    case _ hlen =>
      split at h
      · exact absurd h (by simp)
      case _ hglen =>
        simp only [Except.ok.injEq] at h
        subst h
        have hsne : sortDesc sizes ≠ [] := by
          intro hcon
          have : (sortDesc sizes).length = 0 := by rw [hcon]; rfl
          rw [sortDesc, List.length_insertionSort] at this
          exact hlen this
        have hperm : List.Perm (sortDesc sizes) sizes := List.perm_insertionSort _ _
        have hsum : (sortDesc sizes).sum = sizes.sum := hperm.sum_eq
        have htot' : total ≤ sizes.sum := by
          rw [htot, hsz]
        have hreach : 2 * (0 + (sortDesc sizes).sum) ≥ total := by
          rw [hsum]
          omega
        obtain ⟨k, hk, hloop, hge, hlt⟩ :=
          n50Loop_first (sortDesc sizes) 0 total hsne hreach
        constructor
        · show total = (contigs.map fun c => c.2.length).sum
          rw [htot]
        constructor
        · show (n50Loop (sortDesc sizes) 0 total).getD 0 ∈ _
          rw [hloop]
          have hmem : (sortDesc sizes).get ⟨k, hk⟩ ∈ sortDesc sizes :=
            List.get_mem _ _ _
          rw [← hsz]
          exact Option.getD_some ▸ (hperm.mem_iff.mp hmem)
        · rw [← hsz]
          refine ⟨k, hk, ?_, ?_, ?_⟩
          · show (n50Loop (sortDesc sizes) 0 total).getD 0 = _
            rw [hloop, Option.getD_some]
          · simpa using hge
          · intro j hj
            simpa using hlt j hj

end AssemblyReport

namespace AssemblyReport

/-- C1 witness: a concrete two-contig assembly. -/
theorem n50_first_cumulative_at_half_witness :
    getSummaryStats [("n1", "AAGG"), ("n2", "CT")] initSummary =
      Except.ok ⟨2, InfoSlot.num 3, 4, 6, InfoSlot.num (1 / 2), 0⟩ ∧
    (⟨2, InfoSlot.num 3, 4, 6, InfoSlot.num (1 / 2), 0⟩ : SummaryInfo).n50 ∈
      ([("n1", "AAGG"), ("n2", "CT")].map fun c => c.2.length) := by
  have hl1 : "AAGG".length = 4 := rfl
  have hl2 : "CT".length = 2 := rfl
  have hg1 : gcCount "AAGG" = 2 := rfl
  have hg2 : gcCount "CT" = 1 := rfl
  have hn1 : countChar "AAGG" 'N' = 0 := rfl
  have hn2 : countChar "CT" 'N' = 0 := rfl
  have hok : getSummaryStats [("n1", "AAGG"), ("n2", "CT")] initSummary =
      Except.ok ⟨2, InfoSlot.num 3, 4, 6, InfoSlot.num (1 / 2), 0⟩ := by
    norm_num [getSummaryStats, summaryLoop, initSummary, hl1, hl2, hg1, hg2,
      hn1, hn2, sortDesc, List.insertionSort, List.orderedInsert, n50Loop]
  exact ⟨hok, (n50_first_cumulative_at_half _ _ hok).2.1⟩

/-- C9 counterexample: on the one-contig assembly `[("c1", "AG")]` the first
`get_summary_stats` call succeeds, but the immediately repeated call on the
state it leaves behind raises an `AttributeError` (`avg_gc` is a float, not
a list) instead of returning the same summary. -/
theorem summary_recompute_concrete_fails :
    getSummaryStats [("c1", "AG")] initSummary =
      Except.ok ⟨1, InfoSlot.num 2, 2, 2, InfoSlot.num (1 / 2), 0⟩ ∧
    getSummaryStats [("c1", "AG")]
        ⟨1, InfoSlot.num 2, 2, 2, InfoSlot.num (1 / 2), 0⟩ =
      Except.error attrError := by
  constructor
  · have hl : "AG".length = 2 := rfl
    have hg : gcCount "AG" = 1 := rfl
    have hn : countChar "AG" 'N' = 0 := rfl
    norm_num [getSummaryStats, summaryLoop, initSummary, hl, hg, hn,
      sortDesc, List.insertionSort, List.orderedInsert, n50Loop]
  · norm_num [getSummaryStats, summaryLoop]

/-- C9 (amended): `get_summary_stats` is not idempotent on its own output
state: whenever a first call from the freshly initialised summary state
succeeds, the second call in succession raises an `AttributeError` (the
`avg_gc` slot is no longer a list, and `total_len`/`missing_data` would
accumulate); identical summaries require restarting from the initial
state. -/
theorem getSummaryStats_second_call_errors :
    ∀ (contigs : List (String × String)) (s : SummaryInfo),
    getSummaryStats contigs initSummary = Except.ok s →
    getSummaryStats contigs s = Except.error attrError := by
  intro contigs s h
  have hgc : ∃ q, s.avg_gc = InfoSlot.num q := by
    unfold getSummaryStats at h
    split at h
    · exact absurd h (by simp)
    · split at h
      · exact absurd h (by simp)
      · split at h
        · exact absurd h (by simp)
        · simp only [Except.ok.injEq] at h
          subst h
          exact ⟨_, rfl⟩
  obtain ⟨q, hq⟩ := hgc
  have hne : contigs ≠ [] := by
    rintro rfl
    have hempty : getSummaryStats [] initSummary = Except.error zeroDivError :=
      rfl
    rw [hempty] at h
    exact Except.noConfusion h
  obtain ⟨⟨hid, seq⟩, rest, rfl⟩ : ∃ hd rest, contigs = hd :: rest := by
    cases contigs with
    | nil => exact absurd rfl hne
    | cons hd rest => exact ⟨hd, rest, rfl⟩
  have hsl : summaryLoop ((hid, seq) :: rest) [] s.total_len s.avg_gc
      s.missing_data = Except.error attrError := by
    rw [hq]
    norm_num [summaryLoop]
  unfold getSummaryStats
  rw [hsl]

/-- C9 witness: the amended theorem applied at a concrete one-contig
assembly. -/
theorem getSummaryStats_second_call_errors_witness :
    getSummaryStats [("c2", "GATTACA")]
        ⟨1, InfoSlot.num 7, 7, 7, InfoSlot.num (2 / 7), 0⟩ =
      Except.error attrError := by
  have hl : "GATTACA".length = 7 := rfl
  have hg : gcCount "GATTACA" = 2 := rfl
  have hn : countChar "GATTACA" 'N' = 0 := rfl
  exact getSummaryStats_second_call_errors _ _ (by
    norm_num [getSummaryStats, summaryLoop, initSummary, hl, hg, hn,
      sortDesc, List.insertionSort, List.orderedInsert, n50Loop])

/-- C8 counterexample: the coverage sliding window on an assembly whose
only contig is absent from the per-base depth table succeeds with no
lookup error at all — it returns labels and x-bars for the contig but an
empty coverage series, silently omitting the missing contig. -/
theorem coverage_sliding_silent_on_missing_contig :
    getCoverageSliding [("s_NODE_1_c", "ACGT")] 4 [] 2000 =
      Except.ok ([], ["1_0"], [(1 : ℚ) / 500]) := by
  have hb : boundariesOf [("s_NODE_1_c", "ACGT")] 0 = [("s_NODE_1_c", 0, 4)] :=
    rfl
  have hnid : nodeId "s_NODE_1_c" = some "1" := rfl
  have hrs : rangeStep 4 2000 = [0] := rfl
  have hrs0 : rangeStep 0 2000 = [] := rfl
  have hlbl : ("1" : String) ++ "_" ++ toString (0 : Nat) = "1_0" := rfl
  have hL : "ACGT".length = 4 := rfl
  have hwl : getWindowLabels [("s_NODE_1_c", "ACGT")] 4 2000 =
      Except.ok (["1_0"], [(4 : ℚ) / 2000]) := by
    norm_num [getWindowLabels, hb, hrs, collectLabels, windowLabelAt, hnid,
      hlbl, hL, Bind.bind, Except.bind]
  norm_num [getCoverageSliding, hwl, meanWindows, hrs0, Bind.bind,
    Except.bind]

end AssemblyReport

namespace ProcessSpades

/-- The inner rule loop either passes every rule, or stops at the first
failing rule: the rule list splits as `pre ++ r :: post` with every rule of
`pre` passing and `r` failing. -/
theorem firstFail_characterization :
    ∀ (c : Contig) (rules : List Rule),
      (firstFail c rules = none ∧
        ∀ r ∈ rules, testTruth (contigVal c r.key) r.op r.value = true) ∨
      (∃ pre r post, rules = pre ++ r :: post ∧
        (∀ r' ∈ pre, testTruth (contigVal c r'.key) r'.op r'.value = true) ∧
        testTruth (contigVal c r.key) r.op r.value = false ∧
        firstFail c rules = some r) := by
  intro c rules
  induction rules with
  | nil => left; exact ⟨rfl, by simp⟩
  | cons r rest ih =>
    by_cases hr : testTruth (contigVal c r.key) r.op r.value = true
    · rcases ih with ⟨hn, hall⟩ | ⟨pre, rf, post, heq, hpre, hf, hsome⟩
      · left
        refine ⟨by simp [firstFail, hr, hn], ?_⟩
        intro r' hr'
        rcases List.mem_cons.mp hr' with rfl | h'
        · exact hr
        · exact hall r' h'
      · right
        refine ⟨r :: pre, rf, post, by rw [heq]; rfl, ?_, hf, ?_⟩
        · intro r' h'
          rcases List.mem_cons.mp h' with rfl | h''
          · exact hr
          · exact hpre r' h''
        · simp [firstFail, hr, hsome]
    · right
      refine ⟨[], r, rest, rfl, by simp, ?_, ?_⟩
      · exact Bool.not_eq_true _ ▸ hr
      · simp [firstFail, hr]

/-- C4: `filter_contigs` evaluates the caller-supplied rules followed by the
two always-appended GC-proportion rules in order, with AND semantics: the
first failing rule excludes the contig and is recorded (key, observed
value, threshold) as its rejection reason, short-circuiting the rest; when
every rule passes the contig is kept and reported `"pass"`.  A contig whose
GC proportion violates either GC bound is excluded no matter what rule set
the caller supplied. -/
theorem filter_contigs_first_fail_and_gc :
    ∀ (comparisons : List Rule) (i : Nat) (c : Contig),
      ((∃ pre r post, comparisons ++ gcFilters = pre ++ r :: post ∧
          (∀ r' ∈ pre, testTruth (contigVal c r'.key) r'.op r'.value = true) ∧
          testTruth (contigVal c r.key) r.op r.value = false ∧
          filterContigs comparisons [(i, c)] =
            ([i], [(i, ReportVal.fail r.key (contigVal c r.key) r.value)])) ∨
        ((∀ r ∈ comparisons ++ gcFilters,
            testTruth (contigVal c r.key) r.op r.value = true) ∧
          filterContigs comparisons [(i, c)] = ([], [(i, ReportVal.pass)]))) ∧
      ((c.gc_prop < min_gc ∨ 1 - min_gc < c.gc_prop) →
        (filterContigs comparisons [(i, c)]).1 = [i]) := by
  intro comparisons i c
  have main := firstFail_characterization c (comparisons ++ gcFilters)
  constructor
  · rcases main with ⟨hn, hall⟩ | ⟨pre, r, post, heq, hpre, hf, hsome⟩
    · right
      exact ⟨hall, by simp [filterContigs, hn]⟩
    · left
      exact ⟨pre, r, post, heq, hpre, hf, by simp [filterContigs, hsome]⟩
  · intro hgc
    rcases main with ⟨hn, hall⟩ | ⟨pre, r, post, heq, hpre, hf, hsome⟩
    · exfalso
      have hge := hall ⟨ContigKey.gc_prop, CmpOp.ge, min_gc⟩
        (List.mem_append_right _ (by simp [gcFilters]))
      have hle := hall ⟨ContigKey.gc_prop, CmpOp.le, 1 - min_gc⟩
        (List.mem_append_right _ (by simp [gcFilters]))
      simp only [testTruth, contigVal, decide_eq_true_eq] at hge hle
      rcases hgc with h | h
      · exact absurd hge (not_le.mpr h)
      · exact absurd hle (not_le.mpr h)
    · simp [filterContigs, hsome]

end ProcessSpades

namespace ProcessAssemblyMapping

/-- Two strings differing at one character position differ. -/
theorem string_ne_of_index (s t : String) (n : Nat)
    (h : s.data.get? n ≠ t.data.get? n) : s ≠ t := fun he => h (by rw [he])

/-- Indexing an appended string inside its first part. -/
theorem string_get_append (p q : String) (n : Nat) (hn : n < p.data.length) :
    (p ++ q).data.get? n = p.data.get? n := by
  rw [String.data_append]
  exact List.get?_append hn

theorem largeMsg_get14 (n : Nat) : (largeMsg n).data.get? 14 = some '(' := by
  unfold largeMsg
  rw [string_get_append, string_get_append]
  · rfl
  · decide
  · rw [String.data_append, List.length_append]
    have h15 : "Assembly size (".data.length = 15 := rfl
    omega

theorem largeMsg_ne_smallMsg (n : Nat) : largeMsg n ≠ smallMsg := by
  apply string_ne_of_index _ _ 14
  rw [largeMsg_get14]
  decide

theorem largeMsg_get0 (n : Nat) : (largeMsg n).data.get? 0 = some 'A' := by
  unfold largeMsg
  rw [string_get_append, string_get_append]
  · rfl
  · decide
  · rw [String.data_append, List.length_append]
    have h15 : "Assembly size (".data.length = 15 := rfl
    omega

theorem contigMsg_get0 (m : Nat) (t : ℚ) :
    (contigMsg m t).data.get? 0 = some 'T' := by
  unfold contigMsg
  rw [string_get_append, string_get_append, string_get_append]
  · rfl
  · decide
  · rw [String.data_append, List.length_append]
    have h23 : "The number of contigs (".data.length = 23 := by decide
    omega
  · rw [String.data_append, String.data_append, List.length_append,
      List.length_append]
    have h23 : "The number of contigs (".data.length = 23 := by decide
    omega

theorem largeMsg_ne_contigMsg (n m : Nat) (t : ℚ) :
    largeMsg n ≠ contigMsg m t := by
  apply string_ne_of_index _ _ 0
  rw [largeMsg_get0, contigMsg_get0]
  decide

/-- C2: whenever `check_filtered_assembly` returns a verdict, the verdict
is `False` exactly when the filtered assembly length falls below 80% of
the expected genome size; the over-150% warning message is written exactly
when the filtered length exceeds 150% (and that condition alone leaves the
verdict `True`, recording only the non-fatal `Large_genome_size` tag); and
the `excessive_contigs:high` warning is recorded exactly when the filtered
contig count exceeds `max_contigs * genome_size / 1.5`.  The three checks
are independent if-statements, so warnings co-occur freely with a pass
verdict and with a size failure. -/
theorem checkFilteredAssembly_health_checks :
    ∀ (coverageInfo : List (String × CovEntry))
      (coverageBp : List (String × List Nat))
      (minimumCoverage genomeSize : ℚ) (maxContigs : Nat) (r : CheckResult),
    checkFilteredAssembly coverageInfo coverageBp minimumCoverage genomeSize
        maxContigs = Except.ok r →
    (r.health = false ↔
      (filteredLen coverageInfo minimumCoverage : ℚ) <
        genomeSize * 1000000 * 0.8) ∧
    (largeMsg (filteredLen coverageInfo minimumCoverage) ∈ r.warnFile ↔
      (filteredLen coverageInfo minimumCoverage : ℚ) >
        genomeSize * 1000000 * 1.5) ∧
    ("excessive_contigs:high" ∈ r.warnings ↔
      ((keptContigs coverageInfo minimumCoverage).length : ℚ) >
        (maxContigs : ℚ) * genomeSize / 1.5) ∧
    ((filteredLen coverageInfo minimumCoverage : ℚ) >
        genomeSize * 1000000 * 1.5 ∧
      ¬((filteredLen coverageInfo minimumCoverage : ℚ) <
        genomeSize * 1000000 * 0.8) →
      r.health = true ∧
      r.fails = largeFail (filteredLen coverageInfo minimumCoverage)) := by
  intro coverageInfo coverageBp minimumCoverage genomeSize maxContigs r h
  unfold checkFilteredAssembly at h
  dsimp only at h
  split at h
  · exact absurd h (by simp)
  · split at h
    · split at h
      · exact absurd h (by simp)
      · simp only [Except.ok.injEq] at h
        subst h
        refine ⟨by simp [*], ?_, ?_, ?_⟩
        · by_cases hc1 : (filteredLen coverageInfo minimumCoverage : ℚ) >
              genomeSize * 1000000 * 1.5
          · simp [hc1]
          · simp [hc1, largeMsg_ne_smallMsg, largeMsg_ne_contigMsg]
        · by_cases hc2 : ((keptContigs coverageInfo minimumCoverage).length : ℚ) >
              (maxContigs : ℚ) * genomeSize / 1.5
          · simp [hc2]
          · simp [hc2]
        · rintro ⟨-, hns⟩
          exact absurd (by assumption) hns
    · simp only [Except.ok.injEq] at h
      subst h
      refine ⟨by simp [*], ?_, ?_, ?_⟩
      · by_cases hc1 : (filteredLen coverageInfo minimumCoverage : ℚ) >
            genomeSize * 1000000 * 1.5
        · simp [hc1]
        · simp [hc1, largeMsg_ne_contigMsg]
      · by_cases hc2 : ((keptContigs coverageInfo minimumCoverage).length : ℚ) >
            (maxContigs : ℚ) * genomeSize / 1.5
        · simp [hc2]
        · simp [hc2]
      · rintro ⟨hl, -⟩
        exact ⟨rfl, by simp [hl]⟩

end ProcessAssemblyMapping

namespace ProcessAssemblyMapping

/-- C2 witness: a concrete evaluation where the contig-count warning
co-occurs with a size failure. -/
theorem checkFilteredAssembly_health_checks_witness :
    ((⟨[contigMsg 1 0, smallMsg], ["excessive_contigs:high"], smallFail 100,
        false, 3, [5]⟩ : CheckResult).health = false ↔
      (filteredLen [("a", ⟨5, 100⟩)] 0 : ℚ) < 1 * 1000000 * 0.8) := by
  have hkept : keptContigs [("a", (⟨5, 100⟩ : CovEntry))] 0 =
      [("a", ⟨5, 100⟩)] := by
    norm_num [keptContigs]
  have hsum : sumBp [("a", [1, 2])] ["a"] = Except.ok 3 := rfl
  have hok : checkFilteredAssembly [("a", ⟨5, 100⟩)] [("a", [1, 2])] 0 1 0 =
      Except.ok ⟨[contigMsg 1 0, smallMsg], ["excessive_contigs:high"],
        smallFail 100, false, 3, [5]⟩ := by
    norm_num [checkFilteredAssembly, filteredLen, hkept, hsum]
  exact (checkFilteredAssembly_health_checks _ _ _ _ _ _ hok).1

/-- Summing per-base depths over a key list raises `KeyError` as soon as
one key is absent from the depth dict. -/
theorem sumBp_missing_key :
    ∀ (bp : List (String × List Nat)) (keys : List String),
      (∃ k ∈ keys, bp.lookup k = none) →
      sumBp bp keys = Except.error keyError := by
  intro bp keys
  induction keys with
  | nil => rintro ⟨k, hk, -⟩; exact absurd hk (List.not_mem_nil k)
  | cons k rest ih =>
    rintro ⟨k', hk', hnone⟩
    rcases List.mem_cons.mp hk' with rfl | hmem
    · simp [sumBp, hnone]
    · cases hl : bp.lookup k with
      | none => simp [sumBp, hl]
      | some l =>
        have hrest := ih ⟨k', hmem, hnone⟩
        simp [sumBp, hl, hrest, Bind.bind, Except.bind]

/-- C8 (amended): the per-contig coverage aggregation of
`check_filtered_assembly` raises a `KeyError` whenever a contig passing
the coverage filter is absent from the per-base depth table, while the
coverage sliding window of `assembly_report` raises nothing for a contig
absent from the depth table — it silently windows only the depth values
that are present. -/
theorem depth_lookup_error_only_in_aggregation :
    (∀ (coverageInfo : List (String × CovEntry))
       (coverageBp : List (String × List Nat))
       (minimumCoverage genomeSize : ℚ) (maxContigs : Nat),
      (∃ k ∈ (keptContigs coverageInfo minimumCoverage).map Prod.fst,
          coverageBp.lookup k = none) →
      checkFilteredAssembly coverageInfo coverageBp minimumCoverage
        genomeSize maxContigs = Except.error keyError) ∧
    AssemblyReport.getCoverageSliding [("s_NODE_2_x", "ACGTACGT")] 8 [] 2000 =
      Except.ok ([], ["2_0"], [(1 : ℚ) / 250]) := by
  constructor
  · intro coverageInfo coverageBp minimumCoverage genomeSize maxContigs hmiss
    unfold checkFilteredAssembly
    dsimp only
    rw [sumBp_missing_key _ _ hmiss]
  · have hb : AssemblyReport.boundariesOf [("s_NODE_2_x", "ACGTACGT")] 0 =
        [("s_NODE_2_x", 0, 8)] := rfl
    have hnid : AssemblyReport.nodeId "s_NODE_2_x" = some "2" := rfl
    have hrs : AssemblyReport.rangeStep 8 2000 = [0] := rfl
    have hrs0 : AssemblyReport.rangeStep 0 2000 = [] := rfl
    have hlbl : ("2" : String) ++ "_" ++ toString (0 : Nat) = "2_0" := rfl
    have hL : "ACGTACGT".length = 8 := rfl
    have hwl : AssemblyReport.getWindowLabels [("s_NODE_2_x", "ACGTACGT")]
        8 2000 = Except.ok (["2_0"], [(8 : ℚ) / 2000]) := by
      norm_num [AssemblyReport.getWindowLabels, hb, hrs,
        AssemblyReport.collectLabels, AssemblyReport.windowLabelAt, hnid,
        hlbl, hL, Bind.bind, Except.bind]
    norm_num [AssemblyReport.getCoverageSliding, hwl,
      AssemblyReport.meanWindows, hrs0, Bind.bind, Except.bind]

end ProcessAssemblyMapping
